import Mathlib

/-!
Verification of the remote-read transcoding pipeline in
`reader/handler.go` (prometheus-elasticsearch-adapter).

The Go source is shallowly embedded:
* a `Row` (Go `map[string]interface{}`) is an association list from field
  names to dynamically typed values; Go's type assertions `v.(string)` /
  `v.(float64)` become `Option`-valued projections where `none` models the
  run-time panic of a failed assertion;
* `float64` sample values are only copied by the code, never computed with,
  so they are embedded as `Rat`;
* Go's `time.Parse(time.RFC3339, s)` is modelled by an explicit RFC 3339
  parser, and `t.UTC().UnixNano()` by exact integer arithmetic wrapped to
  64-bit two's complement (`time.Parse` returns the zero `Time` on failure,
  whose `UnixNano` overflows to -6795364578871345152);
* the handler `Handle` is embedded over an abstract dependency record
  (snappy codec, protobuf codec, store client), instrumented with a flag
  recording whether the store client's `Read` was invoked.
-/

namespace ESAdapter

/-- A dynamically typed field value of an Elasticsearch row
(`interface{}` in the Go source): either a string or a float64. -/
inductive FieldVal where
  | str : String → FieldVal
  | num : Rat → FieldVal
  deriving DecidableEq, Repr

/-- A row returned by the store client: Go's `map[string]interface{}`,
embedded as an association list (a fixed iteration order; Go map
iteration order is unspecified, and `buildKey` sorts, so nothing a claim
relies on depends on it). -/
abbrev Row := List (String × FieldVal)

/-- `prompb.Label`. -/
structure Label where
  name : String
  value : String
  deriving DecidableEq, Repr

/-- `prompb.Sample` (timestamp in milliseconds, value). -/
structure Sample where
  timestamp : Int
  value : Rat
  deriving DecidableEq, Repr

/-- `prompb.TimeSeries`. -/
structure TimeSeries where
  labels : List Label
  samples : List Sample
  deriving DecidableEq, Repr

/-- The handler's `labelsToSeries` map, embedded as an insertion-ordered
association list from Series Key to the series under construction. -/
abbrev SeriesMap := List (String × TimeSeries)

/-! ## Time: `time.Parse(time.RFC3339, ·)` and `UnixNano` -/

/-- The value of a decimal digit character, if it is one. -/
def digitVal (c : Char) : Option Nat :=
  if '0' ≤ c ∧ c ≤ '9' then some (c.toNat - 48) else none

/-- Parse exactly two decimal digits. -/
def num2 : List Char → Option (Nat × List Char)
  | c1 :: c2 :: rest => do
    let d1 ← digitVal c1
    let d2 ← digitVal c2
    pure (d1 * 10 + d2, rest)
  | _ => none

/-- Parse exactly four decimal digits. -/
def num4 : List Char → Option (Nat × List Char)
  | c1 :: c2 :: c3 :: c4 :: rest => do
    let d1 ← digitVal c1
    let d2 ← digitVal c2
    let d3 ← digitVal c3
    let d4 ← digitVal c4
    pure (((d1 * 10 + d2) * 10 + d3) * 10 + d4, rest)
  | _ => none

/-- Consume one expected literal character. -/
def lit (c : Char) : List Char → Option (List Char)
  | c' :: rest => if c' = c then some rest else none
  | [] => none

/-- Take the maximal run of leading decimal digits. -/
def digitRun : List Char → (List Nat × List Char)
  | [] => ([], [])
  | c :: rest =>
    match digitVal c with
    | some d =>
      let (ds, r) := digitRun rest
      (d :: ds, r)
    | none => ([], c :: rest)

/-- Fractional seconds after the dot: one to nine digits, scaled to
nanoseconds (as in Go's fractional-second parsing). -/
def fracNanos (cs : List Char) : Option (Nat × List Char) :=
  let (ds, r) := digitRun cs
  if ds.length = 0 ∨ 9 < ds.length then none
  else some ((ds.foldl (fun a d => a * 10 + d) 0) * 10 ^ (9 - ds.length), r)

/-- Time-zone designator of the RFC 3339 layout `Z07:00`:
either `Z` (UTC) or `±hh:mm`; yields the offset east of UTC in seconds. -/
def parseZone : List Char → Option (Int × List Char)
  | [] => none
  | c :: rest =>
    if c = 'Z' then some (0, rest)
    else if c = '+' ∨ c = '-' then do
      let (hh, r1) ← num2 rest
      let r2 ← lit ':' r1
      let (mm, r3) ← num2 r2
      if hh ≤ 23 ∧ mm ≤ 59 then
        pure (if c = '+' then ((hh * 3600 + mm * 60 : Nat) : Int)
              else -((hh * 3600 + mm * 60 : Nat) : Int), r3)
      else none
    else none

/-- Proleptic-Gregorian leap year, as Go's `isLeap`. -/
def isLeapYear (y : Nat) : Bool :=
  y % 4 == 0 && (y % 100 != 0 || y % 400 == 0)

/-- Days in a month, as Go's `daysIn`. -/
def daysInMonth (y m : Nat) : Nat :=
  if m = 2 then (if isLeapYear y then 29 else 28)
  else if m = 4 ∨ m = 6 ∨ m = 9 ∨ m = 11 then 30 else 31

/-- The broken-down time produced by a successful `time.Parse`:
calendar fields plus fractional-second nanoseconds and the fixed zone
offset (seconds east of UTC). -/
structure GoTime where
  year : Nat
  month : Nat
  day : Nat
  hour : Nat
  minute : Nat
  second : Nat
  nanos : Nat
  offsetSec : Int
  deriving DecidableEq, Repr

/-- `time.Parse(time.RFC3339, s)`: layout `2006-01-02T15:04:05Z07:00`
with optional fractional seconds, field-range validation (month, day in
month, hour, minute, second), and no text allowed after the zone. -/
def parseRFC3339 (s : String) : Option GoTime := do
  let cs := s.data
  let (y, r1) ← num4 cs
  let r2 ← lit '-' r1
  let (mo, r3) ← num2 r2
  let r4 ← lit '-' r3
  let (d, r5) ← num2 r4
  let r6 ← lit 'T' r5
  let (h, r7) ← num2 r6
  let r8 ← lit ':' r7
  let (mi, r9) ← num2 r8
  let r10 ← lit ':' r9
  let (sec, r11) ← num2 r10
  let (ns, r12) ←
    match r11 with
    | c :: rest => if c = '.' then fracNanos rest else pure ((0 : Nat), r11)
    | [] => pure ((0 : Nat), r11)
  let (off, r13) ← parseZone r12
  if 1 ≤ mo ∧ mo ≤ 12 ∧ 1 ≤ d ∧ d ≤ daysInMonth y mo ∧
      h ≤ 23 ∧ mi ≤ 59 ∧ sec ≤ 59 ∧ r13 = [] then
    pure ⟨y, mo, d, h, mi, sec, ns, off⟩
  else none

/-- Days from the civil epoch 1970-01-01 (proleptic Gregorian),
the standard days-from-civil computation used by `time`'s calendar
arithmetic. -/
def daysFromCivil (y m d : Nat) : Int :=
  let yi : Int := if m ≤ 2 then (y : Int) - 1 else (y : Int)
  let era : Int := Int.fdiv yi 400
  let yoe : Int := yi - era * 400
  let mp : Int := if m ≤ 2 then (m : Int) + 9 else (m : Int) - 3
  let doy : Int := Int.fdiv (153 * mp + 2) 5 + (d : Int) - 1
  let doe : Int := yoe * 365 + Int.fdiv yoe 4 - Int.fdiv yoe 100 + doy
  era * 146097 + doe - 719468

/-- Mathematical (unwrapped) nanoseconds since the Unix epoch of a
broken-down time. -/
def unixNano (t : GoTime) : Int :=
  (daysFromCivil t.year t.month t.day * 86400
    + (t.hour : Int) * 3600 + (t.minute : Int) * 60 + (t.second : Int)
    - t.offsetSec) * 1000000000 + (t.nanos : Int)

/-- Wrap an integer to signed 64-bit two's complement, as Go's `int64`
arithmetic does on overflow. -/
def wrap64 (n : Int) : Int :=
  Int.emod (n + 2 ^ 63) (2 ^ 64) - 2 ^ 63

/-- The zero `time.Time` (January 1, year 1, 00:00:00 UTC) that
`time.Parse` returns alongside an error. -/
def zeroGoTime : GoTime := ⟨1, 1, 1, 0, 0, 0, 0, 0⟩

/-- `t.UTC().UnixNano() / int64(time.Millisecond)` for the time parsed
from `s`, with the parse error ignored exactly as the handler does
(`t, _ := time.Parse(...)`): a failed parse leaves the zero time.
`Int.tdiv` truncates toward zero, as Go's `/` on `int64`. -/
def timeInMillis (s : String) : Int :=
  Int.tdiv (wrap64 (unixNano ((parseRFC3339 s).getD zeroGoTime))) 1000000

/-- The millisecond timestamp the handler produces for a row whose
`timestamp` field fails to parse: the Go zero time's (overflowed)
`UnixNano` divided by 10^6. -/
def zeroTimeMillis : Int := -6795364578871

/-! ## Rows: map access and type assertions -/

/-- Go map access `datapoint[k]`: `some v` when the key is present,
`none` for the nil interface a missing key yields. -/
def rowGet : Row → String → Option FieldVal
  | [], _ => none
  | (k', v) :: rest, k => if k' = k then some v else rowGet rest k

/-- The type assertion `.(string)`: `none` models the panic on a
non-string (or nil) interface value. -/
def asString : Option FieldVal → Option String
  | some (.str s) => some s
  | _ => none

/-- The type assertion `.(float64)`: `none` models the panic on a
non-float (or nil) interface value. -/
def asNumber : Option FieldVal → Option Rat
  | some (.num q) => some q
  | _ => none

/-- A field participates in labels unless its name is one of the two
reserved names (`k != "value" && k != "timestamp"` in both loops). -/
def nonReserved (kv : String × FieldVal) : Bool :=
  kv.1 != "value" && kv.1 != "timestamp"

/-- The `v.(string)` assertions of a loop over label fields: all label
values as strings, or `none` if any assertion panics. -/
def assertStrings : List (String × FieldVal) → Option (List String)
  | [] => some []
  | (_, .str s) :: rest => (assertStrings rest).map (fun l => s :: l)
  | (_, .num _) :: _ => none

/-- Go's `strings.Join(elems, sep)`. -/
def stringsJoin (elems : List String) (sep : String) : String :=
  match elems with
  | [] => ""
  | [e] => e
  | e :: rest => e ++ sep ++ stringsJoin rest sep

/-- Lexicographic comparison of character sequences: the order
`sort.Strings` sorts by (Go compares strings bytewise; on valid UTF-8,
bytewise order coincides with this code-point order). -/
def charListLe : List Char → List Char → Bool
  | [], _ => true
  | _ :: _, [] => false
  | a :: as, b :: bs => if a = b then charListLe as bs else decide (a < b)

/-- The string comparison of `sort.Strings` as a relation. -/
def strLe (a b : String) : Prop := charListLe a.data b.data = true

instance : DecidableRel strLe := fun a b =>
  inferInstanceAs (Decidable (charListLe a.data b.data = true))

/-- `buildKey` (`handler.go:133-142`): collect the values (`v.(string)`)
of all non-reserved fields, `sort.Strings` them, and join with `","`.
`none` models the panic of a failed string assertion. -/
def buildKey (datapoint : Row) : Option String :=
  (assertStrings (datapoint.filter nonReserved)).map
    (fun keys => stringsJoin (keys.insertionSort strLe) ",")

/-- The label-pair loop of `responseToTimeseries` (`handler.go:96-103`):
one `prompb.Label` per non-reserved field, `none` on a failed
`v.(string)` assertion. -/
def assertLabels : List (String × FieldVal) → Option (List Label)
  | [] => some []
  | (k, .str s) :: rest => (assertLabels rest).map (fun l => ⟨k, s⟩ :: l)
  | (_, .num _) :: _ => none

/-- The labels built for a fresh series from a row. -/
def labelsOf (datapoint : Row) : Option (List Label) :=
  assertLabels (datapoint.filter nonReserved)

/-! ## The series map -/

/-- Lookup in the `labelsToSeries` map. -/
def lookupS : SeriesMap → String → Option TimeSeries
  | [], _ => none
  | (k', ts) :: rest, k => if k' = k then some ts else lookupS rest k

/-- `ts.Samples = append(ts.Samples, s)` through the pointer stored in
the map: append a sample to the series stored under `k` (no-op if the
key is absent, which the handler never lets happen). -/
def appendSample : SeriesMap → String → Sample → SeriesMap
  | [], _, _ => []
  | (k', ts) :: rest, k, s =>
    if k' = k then (k', ⟨ts.labels, ts.samples ++ [s]⟩) :: rest
    else (k', ts) :: appendSample rest k s

/-- One iteration of the row loop in `responseToTimeseries`
(`handler.go:89-121`): compute the row's key, create the series (with
its label pairs and empty samples) if the key is new, then parse the
timestamp, assert the value, and append the sample. `none` models a
panic of any type assertion. -/
def processRow (acc : SeriesMap) (datapoint : Row) : Option SeriesMap := do
  let key ← buildKey datapoint
  let acc' ←
    match lookupS acc key with
    | some _ => some acc
    | none => (labelsOf datapoint).map (fun lp => acc ++ [(key, ⟨lp, []⟩)])
  let tstr ← asString (rowGet datapoint "timestamp")
  let v ← asNumber (rowGet datapoint "value")
  some (appendSample acc' key ⟨timeInMillis tstr, v⟩)

/-- `responseToTimeseries` (`handler.go:86-130`): fold the row loop over
the datapoints and emit the constructed series. The Go code emits them
in unspecified map order; the embedding fixes insertion order (claims
about the result treat it as an unordered collection). `none` models a
panic on an ill-typed row. -/
def responseToTimeseries (dataPoints : List Row) : Option (List TimeSeries) :=
  (dataPoints.foldlM processRow []).map (fun m => m.map Prod.snd)

/-! ## The handler -/

/-- A query of a `prompb.ReadRequest`: opaque to this core, passed
through unexamined to the store client. -/
inductive Query where
  | mk : Query

/-- `prompb.ReadRequest`. -/
structure ReadRequest where
  queries : List Query

/-- `prompb.QueryResult`. -/
structure QueryResult where
  timeseries : List TimeSeries

/-- `prompb.ReadResponse`. -/
structure ReadResponse where
  results : List QueryResult

/-- Raw transported bytes. -/
abbrev Bytes := List Nat

/-- The handler's external collaborators: the snappy codec, the protobuf
codec and the store client built by `config.BuildClient()`. -/
structure HandleDeps where
  decompress : Bytes → Except String Bytes
  unmarshal : Bytes → Except String ReadRequest
  read : ReadRequest → Except String (List Row)
  marshal : ReadResponse → Except String Bytes
  compress : Bytes → Bytes

/-- The observable outcome of one `Handle` call. `clientError` is
`http.Error(..., StatusBadRequest)`, `serverError` is
`http.Error(..., StatusInternalServerError)`, `success` is the
compressed protocol body written with headers set, and `crashed` is a
run-time panic escaping the handler. -/
inductive HandleResult where
  | clientError : String → HandleResult
  | serverError : String → HandleResult
  | success : Bytes → HandleResult
  | crashed : HandleResult
  deriving DecidableEq, Repr

/-- `Handle` (`handler.go:19-83`), instrumented: the second component
records whether the store client's `Read` was invoked.

The body is either the bytes read or the `ioutil.ReadAll` error.  Note
`handler.go:40-42`: the unmarshal branch tests `err1` but formats the
stale `err` — which is `nil` there, the snappy decode having succeeded —
so `err.Error()` dereferences a nil interface and panics (`crashed`)
instead of writing the intended 400. A panic inside
`responseToTimeseries` (ill-typed row) likewise yields `crashed`.
The final `w.Write` is abstracted as always succeeding (transport). -/
def HandleRun (deps : HandleDeps) (body : Except String Bytes) :
    HandleResult × Bool :=
  match body with
  | .error e => (.clientError e, false)
  | .ok compressed =>
    match deps.decompress compressed with
    | .error e => (.clientError e, false)
    | .ok reqBuf =>
      match deps.unmarshal reqBuf with
      | .error _ => (.crashed, false)
      | .ok req =>
        if req.queries.length ≠ 1 then
          (.clientError "Can only handle one query.", false)
        else
          match deps.read req with
          | .error e => (.serverError e, true)
          | .ok datapoints =>
            match responseToTimeseries datapoints with
            | none => (.crashed, true)
            | some tss =>
              match deps.marshal ⟨[⟨tss⟩]⟩ with
              | .error e => (.serverError e, true)
              | .ok data => (.success (deps.compress data), true)

/-- The handler's outcome alone. -/
def Handle (deps : HandleDeps) (body : Except String Bytes) : HandleResult :=
  (HandleRun deps body).1

/-! ## Well-typed rows and panic-free counterparts

On rows that satisfy the Row precondition (label values are strings,
`value` is a float, `timestamp` is a string, field names unique as in a
Go map) every type assertion succeeds, and the row loop agrees with the
total functions below. -/

/-- The string carried by a field value (label values are strings by the
Row precondition; the default is never reached on well-typed rows). -/
def strOf : FieldVal → String
  | .str s => s
  | .num _ => ""

/-- Whether a field value is a string. -/
def isStr : FieldVal → Bool
  | .str _ => true
  | .num _ => false

/-- The label values of a row (values of its non-reserved fields). -/
def labelValuesT (dp : Row) : List String :=
  (dp.filter nonReserved).map (fun kv => strOf kv.2)

/-- The label pairs of a row (its non-reserved fields). -/
def labelPairsT (dp : Row) : List Label :=
  (dp.filter nonReserved).map (fun kv => ⟨kv.1, strOf kv.2⟩)

/-- The Series Key of a well-typed row: sorted label values joined with
`","`. -/
def keyOf (dp : Row) : String :=
  stringsJoin ((labelValuesT dp).insertionSort strLe) ","

/-- The `timestamp` string of a well-typed row. -/
def tsOf (dp : Row) : String :=
  (asString (rowGet dp "timestamp")).getD ""

/-- The `value` float of a well-typed row. -/
def valOf (dp : Row) : Rat :=
  (asNumber (rowGet dp "value")).getD 0

/-- The sample a well-typed row contributes. -/
def sampleOf (dp : Row) : Sample :=
  ⟨timeInMillis (tsOf dp), valOf dp⟩

/-- The Row precondition (§3/§4.3 of the design): unique field names,
string-typed label values, a string `timestamp` and a numeric `value`. -/
def rowOk (dp : Row) : Bool :=
  decide ((dp.map Prod.fst).Nodup)
    && (dp.filter nonReserved).all (fun kv => isStr kv.2)
    && (asString (rowGet dp "timestamp")).isSome
    && (asNumber (rowGet dp "value")).isSome

/-- `processRow` on a well-typed row, with the assertions resolved. -/
def seriesStep (acc : SeriesMap) (dp : Row) : SeriesMap :=
  let key := keyOf dp
  let acc' :=
    match lookupS acc key with
    | some _ => acc
    | none => acc ++ [(key, ⟨labelPairsT dp, []⟩)]
  appendSample acc' key (sampleOf dp)

/-- The series map built from a row sequence. -/
def seriesOf (rows : List Row) : SeriesMap :=
  rows.foldl seriesStep []

/-- The Series Keys present after grouping a row sequence. -/
def seriesKeys (rows : List Row) : List String :=
  (seriesOf rows).map Prod.fst

/-- The rows of a sequence that fall under Series Key `k`, in input
order. -/
def rowsOfKey (rows : List Row) (k : String) : List Row :=
  rows.filter (fun r => keyOf r == k)

lemma assertStrings_eq (l : List (String × FieldVal))
    (h : ∀ kv ∈ l, isStr kv.2 = true) :
    assertStrings l = some (l.map (fun kv => strOf kv.2)) := by
  induction l with
  | nil => rfl
  | cons kv rest ih =>
    obtain ⟨k, v⟩ := kv
    cases v with
    | str s =>
      simp only [assertStrings, List.map_cons,
        ih (fun kv hkv => h kv (List.mem_cons_of_mem _ hkv))]
      rfl
    | num q =>
      have := h (k, .num q) (List.mem_cons_self _ _)
      simp [isStr] at this

lemma assertLabels_eq (l : List (String × FieldVal))
    (h : ∀ kv ∈ l, isStr kv.2 = true) :
    assertLabels l = some (l.map (fun kv => ⟨kv.1, strOf kv.2⟩)) := by
  induction l with
  | nil => rfl
  | cons kv rest ih =>
    obtain ⟨k, v⟩ := kv
    cases v with
    | str s =>
      simp only [assertLabels, List.map_cons,
        ih (fun kv hkv => h kv (List.mem_cons_of_mem _ hkv))]
      rfl
    | num q =>
      have := h (k, .num q) (List.mem_cons_self _ _)
      simp [isStr] at this

lemma rowOk_parts {dp : Row} (h : rowOk dp = true) :
    (dp.map Prod.fst).Nodup ∧
    (dp.filter nonReserved).all (fun kv => isStr kv.2) = true ∧
    (asString (rowGet dp "timestamp")).isSome = true ∧
    (asNumber (rowGet dp "value")).isSome = true := by
  simp only [rowOk, Bool.and_eq_true, decide_eq_true_eq] at h
  exact ⟨h.1.1.1, h.1.1.2, h.1.2, h.2⟩

lemma rowOk_labels {dp : Row} (h : rowOk dp = true) :
    ∀ kv ∈ dp.filter nonReserved, isStr kv.2 = true :=
  fun kv hkv => List.all_eq_true.mp (rowOk_parts h).2.1 kv hkv

lemma buildKey_eq {dp : Row} (h : rowOk dp = true) :
    buildKey dp = some (keyOf dp) := by
  simp [buildKey, keyOf, labelValuesT, assertStrings_eq _ (rowOk_labels h)]

lemma labelsOf_eq {dp : Row} (h : rowOk dp = true) :
    labelsOf dp = some (labelPairsT dp) := by
  simp [labelsOf, labelPairsT, assertLabels_eq _ (rowOk_labels h)]

lemma rowOk_timestamp {dp : Row} (h : rowOk dp = true) :
    asString (rowGet dp "timestamp") = some (tsOf dp) := by
  have hs : (asString (rowGet dp "timestamp")).isSome = true :=
    (rowOk_parts h).2.2.1
  obtain ⟨s, hs'⟩ := Option.isSome_iff_exists.mp hs
  simp [tsOf, hs']

lemma rowOk_value {dp : Row} (h : rowOk dp = true) :
    asNumber (rowGet dp "value") = some (valOf dp) := by
  have hs : (asNumber (rowGet dp "value")).isSome = true :=
    (rowOk_parts h).2.2.2
  obtain ⟨q, hq⟩ := Option.isSome_iff_exists.mp hs
  simp [valOf, hq]

/-- On a well-typed row, one loop iteration never panics and computes
`seriesStep`. -/
lemma processRow_eq (acc : SeriesMap) {dp : Row} (h : rowOk dp = true) :
    processRow acc dp = some (seriesStep acc dp) := by
  unfold processRow seriesStep
  rw [buildKey_eq h]
  cases hl : lookupS acc (keyOf dp) with
  | some ts =>
    simp [hl, rowOk_timestamp h, rowOk_value h, sampleOf, Option.bind,
      bind, Option.some_bind]
  | none =>
    simp [hl, labelsOf_eq h, rowOk_timestamp h, rowOk_value h, sampleOf,
      Option.bind, bind, Option.some_bind]

lemma foldlM_processRow_eq (rows : List Row)
    (h : ∀ r ∈ rows, rowOk r = true) (acc : SeriesMap) :
    rows.foldlM processRow acc = some (rows.foldl seriesStep acc) := by
  induction rows generalizing acc with
  | nil => rfl
  | cons dp rest ih =>
    rw [List.foldlM_cons, processRow_eq acc (h dp (List.mem_cons_self _ _)),
      List.foldl_cons]
    exact ih (fun r hr => h r (List.mem_cons_of_mem _ hr)) _

/-- On well-typed rows, `responseToTimeseries` never panics and emits
exactly the series of `seriesOf`. -/
lemma responseToTimeseries_eq (rows : List Row)
    (h : ∀ r ∈ rows, rowOk r = true) :
    responseToTimeseries rows = some ((seriesOf rows).map Prod.snd) := by
  simp [responseToTimeseries, foldlM_processRow_eq rows h, seriesOf]

/-! ## Structure of the series map built by the row loop -/

lemma lookupS_appendSample (m : SeriesMap) (k k' : String) (s : Sample) :
    lookupS (appendSample m k s) k' =
      if k = k' then
        (lookupS m k').map (fun ts => ⟨ts.labels, ts.samples ++ [s]⟩)
      else lookupS m k' := by
  induction m with
  | nil => by_cases h : k = k' <;> simp [appendSample, lookupS, h]
  | cons e rest ih =>
    obtain ⟨k0, ts0⟩ := e
    by_cases h0 : k0 = k
    · subst h0
      by_cases h' : k0 = k'
      · subst h'
        simp [appendSample, lookupS]
      · simp [appendSample, lookupS, h']
    · by_cases h' : k0 = k'
      · subst h'
        have : ¬ k = k0 := fun h => h0 h.symm
        simp [appendSample, lookupS, h0, this]
      · simp [appendSample, lookupS, h0, h', ih]

lemma lookupS_append_one (m : SeriesMap) (k k' : String) (ts : TimeSeries) :
    lookupS (m ++ [(k, ts)]) k' =
      match lookupS m k' with
      | some t => some t
      | none => if k = k' then some ts else none := by
  induction m with
  | nil => simp [lookupS]
  | cons e rest ih =>
    obtain ⟨k0, ts0⟩ := e
    by_cases h' : k0 = k'
    · subst h'
      simp [lookupS]
    · simp [lookupS, h', ih]

lemma lookupS_seriesStep (acc : SeriesMap) (dp : Row) (k : String) :
    lookupS (seriesStep acc dp) k =
      if keyOf dp = k then
        some (match lookupS acc k with
              | some ts => ⟨ts.labels, ts.samples ++ [sampleOf dp]⟩
              | none => ⟨labelPairsT dp, [sampleOf dp]⟩)
      else lookupS acc k := by
  have hdef : seriesStep acc dp =
      appendSample
        (match lookupS acc (keyOf dp) with
         | some _ => acc
         | none => acc ++ [(keyOf dp, ⟨labelPairsT dp, []⟩)])
        (keyOf dp) (sampleOf dp) := rfl
  rw [hdef]
  cases h0 : lookupS acc (keyOf dp) with
  | some ts0 =>
    rw [lookupS_appendSample]
    by_cases h : keyOf dp = k
    · subst h
      simp [h0]
    · simp [h]
  | none =>
    rw [lookupS_appendSample]
    by_cases h : keyOf dp = k
    · subst h
      simp [lookupS_append_one, h0]
    · rw [if_neg h, if_neg h, lookupS_append_one]
      cases hl : lookupS acc k with
      | some t => simp
      | none => simp [h]

lemma rowsOfKey_cons (dp : Row) (rest : List Row) (k : String) :
    rowsOfKey (dp :: rest) k =
      if keyOf dp = k then dp :: rowsOfKey rest k else rowsOfKey rest k := by
  by_cases h : keyOf dp = k <;> simp [rowsOfKey, List.filter_cons, h]

/-- What the row loop leaves under key `k`: whatever `acc` already held
plus, per row of key `k` in input order, one sample — and for a key
fresh to `acc`, the labels of the first row carrying that key. -/
lemma lookupS_foldl (rows : List Row) (acc : SeriesMap) (k : String) :
    lookupS (rows.foldl seriesStep acc) k =
      match lookupS acc k with
      | some ts =>
        some ⟨ts.labels, ts.samples ++ (rowsOfKey rows k).map sampleOf⟩
      | none =>
        match rowsOfKey rows k with
        | [] => none
        | r :: _ => some ⟨labelPairsT r, (rowsOfKey rows k).map sampleOf⟩ := by
  induction rows generalizing acc with
  | nil =>
    cases h : lookupS acc k with
    | some ts => simp [rowsOfKey, h]
    | none => simp [rowsOfKey, h]
  | cons dp rest ih =>
    rw [List.foldl_cons, ih, lookupS_seriesStep, rowsOfKey_cons]
    by_cases h : keyOf dp = k
    · cases h0 : lookupS acc k with
      | some ts => simp [h, h0]
      | none => simp [h, h0]
    · simp [h]

/-- Total number of samples across the series map. -/
def totalSamples (m : SeriesMap) : Nat :=
  (m.map (fun e => e.2.samples.length)).sum

lemma totalSamples_appendSample (m : SeriesMap) (k : String) (s : Sample)
    (h : (lookupS m k).isSome = true) :
    totalSamples (appendSample m k s) = totalSamples m + 1 := by
  induction m with
  | nil => simp [lookupS] at h
  | cons e rest ih =>
    obtain ⟨k0, ts0⟩ := e
    by_cases h0 : k0 = k
    · subst h0
      have hstep : appendSample ((k0, ts0) :: rest) k0 s
          = (k0, ⟨ts0.labels, ts0.samples ++ [s]⟩) :: rest := by
        simp [appendSample]
      rw [hstep]
      simp only [totalSamples, List.map_cons, List.sum_cons,
        List.length_append, List.length_cons, List.length_nil]
      omega
    · have h' : (lookupS rest k).isSome = true := by
        simpa [lookupS, h0] using h
      have hrec := ih h'
      simp only [appendSample, if_neg h0, totalSamples, List.map_cons,
        List.sum_cons] at hrec ⊢
      omega

lemma totalSamples_append_one (m : SeriesMap) (k : String)
    (lp : List Label) :
    totalSamples (m ++ [(k, ⟨lp, []⟩)]) = totalSamples m := by
  simp [totalSamples]

/-- Each loop iteration appends exactly one sample. -/
lemma totalSamples_seriesStep (acc : SeriesMap) (dp : Row) :
    totalSamples (seriesStep acc dp) = totalSamples acc + 1 := by
  have hdef : seriesStep acc dp =
      appendSample
        (match lookupS acc (keyOf dp) with
         | some _ => acc
         | none => acc ++ [(keyOf dp, ⟨labelPairsT dp, []⟩)])
        (keyOf dp) (sampleOf dp) := rfl
  rw [hdef]
  cases h0 : lookupS acc (keyOf dp) with
  | some ts =>
    have hsome : (lookupS acc (keyOf dp)).isSome = true := by simp [h0]
    rw [totalSamples_appendSample _ _ _ hsome]
  | none =>
    have hsome :
        (lookupS (acc ++ [(keyOf dp, ⟨labelPairsT dp, []⟩)])
          (keyOf dp)).isSome = true := by
      rw [lookupS_append_one]
      simp [h0]
    rw [totalSamples_appendSample _ _ _ hsome, totalSamples_append_one]

lemma totalSamples_foldl (rows : List Row) (acc : SeriesMap) :
    totalSamples (rows.foldl seriesStep acc) =
      totalSamples acc + rows.length := by
  induction rows generalizing acc with
  | nil => simp
  | cons dp rest ih =>
    rw [List.foldl_cons, ih, totalSamples_seriesStep, List.length_cons]
    omega

lemma lookupS_isSome_iff (m : SeriesMap) (k : String) :
    (lookupS m k).isSome = true ↔ k ∈ m.map Prod.fst := by
  induction m with
  | nil => simp [lookupS]
  | cons e rest ih =>
    obtain ⟨k0, ts0⟩ := e
    by_cases h : k0 = k
    · subst h
      simp [lookupS]
    · simp [lookupS, h, ih, Ne.symm h]

lemma lookupS_mem_snd {m : SeriesMap} {k : String} {ts : TimeSeries}
    (h : lookupS m k = some ts) : ts ∈ m.map Prod.snd := by
  induction m with
  | nil => simp [lookupS] at h
  | cons e rest ih =>
    obtain ⟨k0, ts0⟩ := e
    by_cases h0 : k0 = k
    · simp only [lookupS, if_pos h0] at h
      cases h
      simp
    · simp only [lookupS, if_neg h0] at h
      simp only [List.map_cons, List.mem_cons]
      exact Or.inr (ih h)

/-- The series stored under key `k`: labels of the first row with that
key, samples of all rows with that key in input order. -/
lemma lookupS_seriesOf (rows : List Row) (k : String) :
    lookupS (seriesOf rows) k =
      match rowsOfKey rows k with
      | [] => none
      | r :: _ => some ⟨labelPairsT r, (rowsOfKey rows k).map sampleOf⟩ := by
  have h := lookupS_foldl rows [] k
  simpa [seriesOf, lookupS] using h

lemma rowsOfKey_ne_nil_iff (rows : List Row) (k : String) :
    rowsOfKey rows k ≠ [] ↔ ∃ r ∈ rows, keyOf r = k := by
  induction rows with
  | nil => simp [rowsOfKey]
  | cons dp rest ih =>
    rw [rowsOfKey_cons]
    by_cases h : keyOf dp = k
    · simp [h]
    · simp [h, ih]

/-- A key appears among the grouped series iff some row carries it. -/
lemma mem_seriesKeys_iff (rows : List Row) (k : String) :
    k ∈ seriesKeys rows ↔ ∃ r ∈ rows, keyOf r = k := by
  rw [seriesKeys, ← lookupS_isSome_iff, lookupS_seriesOf,
    ← rowsOfKey_ne_nil_iff]
  cases hr : rowsOfKey rows k <;> simp

/-! ## Injectivity of the Series Key on comma-free label values -/

lemma string_data_injective : Function.Injective String.data := by
  intro a b hab
  cases a
  cases b
  exact congrArg String.mk (by simpa using hab)

lemma stringsJoin_data (l : List String) :
    (stringsJoin l ",").data = [','].intercalate (l.map String.data) := by
  match l with
  | [] => rfl
  | [e] => simp [stringsJoin, List.intercalate]
  | e :: e' :: rest =>
    have ih := stringsJoin_data (e' :: rest)
    simp only [stringsJoin, List.map_cons, List.intercalate,
      List.intersperse_cons_cons, List.flatten_cons, String.data_append]
    simp only [List.map_cons, List.intercalate] at ih
    rw [ih]
    simp [List.append_assoc, String.data_append]

lemma stringsJoin_inj {l1 l2 : List String}
    (h1 : l1 ≠ []) (h2 : l2 ≠ [])
    (hc1 : ∀ v ∈ l1, ',' ∉ v.data) (hc2 : ∀ v ∈ l2, ',' ∉ v.data)
    (h : stringsJoin l1 "," = stringsJoin l2 ",") : l1 = l2 := by
  have hd : [','].intercalate (l1.map String.data)
      = [','].intercalate (l2.map String.data) := by
    rw [← stringsJoin_data, ← stringsJoin_data, h]
  have hx1 : ∀ ld ∈ l1.map String.data, ',' ∉ ld := by
    intro ld hld
    obtain ⟨v, hv, rfl⟩ := List.mem_map.mp hld
    exact hc1 v hv
  have hx2 : ∀ ld ∈ l2.map String.data, ',' ∉ ld := by
    intro ld hld
    obtain ⟨v, hv, rfl⟩ := List.mem_map.mp hld
    exact hc2 v hv
  have hls1 : l1.map String.data ≠ [] := by simpa using h1
  have hls2 : l2.map String.data ≠ [] := by simpa using h2
  have hs1 := List.splitOn_intercalate _ ',' hx1 hls1
  have hs2 := List.splitOn_intercalate _ ',' hx2 hls2
  have hmap : l1.map String.data = l2.map String.data := by
    rw [← hs1, ← hs2, hd]
  exact List.map_injective_iff.mpr string_data_injective hmap

lemma charListLe_total : ∀ as bs : List Char,
    charListLe as bs = true ∨ charListLe bs as = true
  | [], _ => Or.inl rfl
  | _ :: _, [] => Or.inr rfl
  | a :: as, b :: bs => by
    by_cases hab : a = b
    · subst hab
      simpa [charListLe] using charListLe_total as bs
    · rcases lt_or_gt_of_ne hab with h | h
      · exact Or.inl (by simp [charListLe, hab, h])
      · exact Or.inr (by simp [charListLe, Ne.symm hab, h])

lemma charListLe_trans : ∀ as bs cs : List Char,
    charListLe as bs = true → charListLe bs cs = true →
    charListLe as cs = true
  | [], _, _, _, _ => rfl
  | _ :: _, [], _, h1, _ => by simp [charListLe] at h1
  | _ :: _, _ :: _, [], _, h2 => by simp [charListLe] at h2
  | a :: as, b :: bs, c :: cs, h1, h2 => by
    by_cases hab : a = b <;> by_cases hbc : b = c
    · subst hab
      subst hbc
      simp only [charListLe, if_pos rfl] at h1 h2 ⊢
      exact charListLe_trans as bs cs h1 h2
    · subst hab
      have h2' : a < c := by simpa [charListLe, hbc] using h2
      simp [charListLe, hbc, h2']
    · subst hbc
      have h1' : a < b := by simpa [charListLe, hab] using h1
      simp [charListLe, hab, h1']
    · have h1' : a < b := by simpa [charListLe, hab] using h1
      have h2' : b < c := by simpa [charListLe, hbc] using h2
      have hlt : a < c := h1'.trans h2'
      have hac : a ≠ c := ne_of_lt hlt
      simp [charListLe, hac, hlt]

lemma charListLe_antisymm : ∀ as bs : List Char,
    charListLe as bs = true → charListLe bs as = true → as = bs
  | [], [], _, _ => rfl
  | [], _ :: _, _, h2 => by simp [charListLe] at h2
  | _ :: _, [], h1, _ => by simp [charListLe] at h1
  | a :: as, b :: bs, h1, h2 => by
    by_cases hab : a = b
    · subst hab
      simp only [charListLe, if_pos rfl] at h1 h2
      rw [charListLe_antisymm as bs h1 h2]
    · have h1' : a < b := by simpa [charListLe, hab] using h1
      have h2' : b < a := by simpa [charListLe, Ne.symm hab] using h2
      exact absurd h1' (lt_asymm h2')

instance : IsTotal String strLe :=
  ⟨fun a b => charListLe_total a.data b.data⟩

instance : IsTrans String strLe :=
  ⟨fun a b c => charListLe_trans a.data b.data c.data⟩

instance : IsAntisymm String strLe :=
  ⟨fun a b h1 h2 =>
    string_data_injective (charListLe_antisymm a.data b.data h1 h2)⟩

/-- Sorting is invariant under permutation (the sort order on `String`
is total and antisymmetric). -/
lemma insertionSort_eq_of_perm {l1 l2 : List String} (h : l1.Perm l2) :
    l1.insertionSort strLe = l2.insertionSort strLe :=
  List.eq_of_perm_of_sorted
    ((List.perm_insertionSort _ _).trans
      (h.trans (List.perm_insertionSort _ _).symm))
    (List.sorted_insertionSort _ _) (List.sorted_insertionSort _ _)

/-- For rows with at least one label, all of whose label values are
comma-free, the Series Key identifies exactly the multiset of label
values. -/
lemma keyOf_eq_iff {r1 r2 : Row}
    (hne1 : labelValuesT r1 ≠ []) (hne2 : labelValuesT r2 ≠ [])
    (hc1 : ∀ v ∈ labelValuesT r1, ',' ∉ v.data)
    (hc2 : ∀ v ∈ labelValuesT r2, ',' ∉ v.data) :
    keyOf r1 = keyOf r2 ↔ (labelValuesT r1).Perm (labelValuesT r2) := by
  constructor
  · intro h
    have hsne1 : (labelValuesT r1).insertionSort strLe ≠ [] := by
      intro hnil
      have hp := List.perm_insertionSort strLe (labelValuesT r1)
      rw [hnil] at hp
      exact hne1 hp.symm.eq_nil
    have hsne2 : (labelValuesT r2).insertionSort strLe ≠ [] := by
      intro hnil
      have hp := List.perm_insertionSort strLe (labelValuesT r2)
      rw [hnil] at hp
      exact hne2 hp.symm.eq_nil
    have hsort : (labelValuesT r1).insertionSort strLe
        = (labelValuesT r2).insertionSort strLe :=
      stringsJoin_inj hsne1 hsne2
        (fun v hv => hc1 v ((List.mem_insertionSort strLe).mp hv))
        (fun v hv => hc2 v ((List.mem_insertionSort strLe).mp hv)) h
    exact (List.perm_insertionSort strLe _).symm.trans
      (hsort ▸ List.perm_insertionSort strLe _)
  · intro h
    unfold keyOf
    rw [insertionSort_eq_of_perm h]

/-- Key of a row depends only on the multiset of its label values
(this direction of the Series Key invariant needs no side condition). -/
lemma keyOf_eq_of_perm {r1 r2 : Row}
    (h : (labelValuesT r1).Perm (labelValuesT r2)) :
    keyOf r1 = keyOf r2 := by
  unfold keyOf
  rw [insertionSort_eq_of_perm h]

/-- The head of `rowsOfKey` is a row of the sequence carrying key `k`. -/
lemma rowsOfKey_head_mem {rows : List Row} {k : String} {r : Row}
    {t : List Row} (h : rowsOfKey rows k = r :: t) :
    r ∈ rows ∧ keyOf r = k := by
  have hr : r ∈ rowsOfKey rows k := by
    rw [h]
    exact List.mem_cons_self _ _
  have := List.mem_filter.mp hr
  exact ⟨this.1, by simpa using this.2⟩

/-! ## Claims -/

/-- C1: whenever the decoded Read Request carries a number of queries
different from one, `Handle` answers `http.Error(w, "Can only handle
one query.", http.StatusBadRequest)` and the store client's `Read` is
never invoked. -/
theorem C1_reject_multi_query (deps : HandleDeps)
    (compressed reqBuf : Bytes) (req : ReadRequest)
    (hd : deps.decompress compressed = .ok reqBuf)
    (hu : deps.unmarshal reqBuf = .ok req)
    (hq : req.queries.length ≠ 1) :
    HandleRun deps (.ok compressed) =
      (.clientError "Can only handle one query.", false) := by
  simp only [HandleRun, hd, hu]
  simp [hq]

/-- Witness for C1: a request decoding to two queries is rejected with
the cardinality message and the store flag stays `false`. -/
theorem C1_reject_multi_query_witness :
    HandleRun
      ⟨fun b => .ok b, fun _ => .ok ⟨[.mk, .mk]⟩, fun _ => .ok [],
       fun _ => .ok [], id⟩ (.ok []) =
      (.clientError "Can only handle one query.", false) :=
  C1_reject_multi_query _ [] [] ⟨[.mk, .mk]⟩ rfl rfl (by decide)

/-- C2 counterexample: the rows `{a:"x", b:"x"}` and `{c:"x"}` carry the
same *set* of label values (both `{"x"}` after deduplication) yet get
the different Series Keys `"x,x"` and `"x"` — the claimed
if-and-only-if with sets of label values is false. -/
theorem C2_value_set_counterexample :
    (labelValuesT [("a", .str "x"), ("b", .str "x"), ("value", .num 1),
        ("timestamp", .str "2024-01-01T00:00:00Z")]).dedup = ["x"] ∧
    (labelValuesT [("c", .str "x"), ("value", .num 1),
        ("timestamp", .str "2024-01-01T00:00:00Z")]).dedup = ["x"] ∧
    buildKey [("a", .str "x"), ("b", .str "x"), ("value", .num 1),
        ("timestamp", .str "2024-01-01T00:00:00Z")] = some "x,x" ∧
    buildKey [("c", .str "x"), ("value", .num 1),
        ("timestamp", .str "2024-01-01T00:00:00Z")] = some "x" := by
  refine ⟨?_, ?_, ?_, ?_⟩ <;> decide

/-- C2 (amended): for well-typed rows having at least one label, all of
whose label values are comma-free, `buildKey` agrees on two rows iff
they carry the same *multiset* of label values (same values with the
same multiplicities, under any label names, in any field order). -/
theorem C2_buildKey_eq_iff_multiset (r1 r2 : Row)
    (h1 : rowOk r1 = true) (h2 : rowOk r2 = true)
    (hne1 : labelValuesT r1 ≠ []) (hne2 : labelValuesT r2 ≠ [])
    (hc1 : ∀ v ∈ labelValuesT r1, ',' ∉ v.data)
    (hc2 : ∀ v ∈ labelValuesT r2, ',' ∉ v.data) :
    buildKey r1 = buildKey r2 ↔
      (labelValuesT r1).Perm (labelValuesT r2) := by
  rw [buildKey_eq h1, buildKey_eq h2, Option.some_inj]
  exact keyOf_eq_iff hne1 hne2 hc1 hc2

/-- Witness for C2: two rows with swapped label names and field order
but the same value multiset `{"x", "y"}` get equal keys. -/
theorem C2_buildKey_eq_iff_multiset_witness :
    buildKey [("a", .str "x"), ("b", .str "y"), ("value", .num 1),
        ("timestamp", .str "t1")] =
      buildKey [("d", .str "y"), ("e", .str "x"), ("value", .num 2),
        ("timestamp", .str "t2")] ↔
    (labelValuesT [("a", .str "x"), ("b", .str "y"), ("value", .num 1),
        ("timestamp", .str "t1")]).Perm
      (labelValuesT [("d", .str "y"), ("e", .str "x"), ("value", .num 2),
        ("timestamp", .str "t2")]) :=
  C2_buildKey_eq_iff_multiset _ _ (by decide) (by decide) (by decide)
    (by decide) (by decide) (by decide)

/-- C3: when decompression succeeds but unmarshalling fails, the claim
expects HTTP 400 carrying the unmarshal error text; the code instead
panics — `handler.go:42` formats the *decompression* error variable
`err`, which is nil on this path, so `err.Error()` is a nil-pointer
dereference. Evaluated at a concrete failing input. -/
theorem C3_unmarshal_failure_crashes :
    HandleRun
      ⟨fun b => .ok b, fun _ => .error "unexpected EOF", fun _ => .ok [],
       fun _ => .ok [], id⟩ (.ok [0, 1, 2]) = (.crashed, false) := rfl

/-- C4: the claim that no panic is reachable is false: the unmarshal
failure path panics (the `err`/`err1` slip of `handler.go:42`), and a
store row violating the Row type precondition panics in
`responseToTimeseries` (failed interface type assertion). -/
theorem C4_crash_reachable :
    HandleRun
      ⟨fun b => .ok b, fun _ => .error "proto: illegal wireType 7",
       fun _ => .ok [], fun _ => .ok [], id⟩ (.ok [7]) =
      (.crashed, false) ∧
    HandleRun
      ⟨fun b => .ok b, fun _ => .ok ⟨[.mk]⟩,
       fun _ => .ok [[("value", .str "oops")]], fun _ => .ok [], id⟩
      (.ok []) = (.crashed, true) :=
  ⟨rfl, rfl⟩

/-- C5: the three-row scenario of the spec yields exactly two series:
`host:a` with samples (1704067200000, 1.0), (1704067260000, 2.0) and
`host:b` with the single sample (1704067200000, 3.0). -/
theorem C5_three_rows_two_series :
    responseToTimeseries
      [[("host", .str "a"), ("value", .num 1),
        ("timestamp", .str "2024-01-01T00:00:00Z")],
       [("host", .str "a"), ("value", .num 2),
        ("timestamp", .str "2024-01-01T00:01:00Z")],
       [("host", .str "b"), ("value", .num 3),
        ("timestamp", .str "2024-01-01T00:00:00Z")]] =
    some [⟨[⟨"host", "a"⟩],
           [⟨1704067200000, 1⟩, ⟨1704067260000, 2⟩]⟩,
          ⟨[⟨"host", "b"⟩], [⟨1704067200000, 3⟩]⟩] := by
  decide

/-- C6 counterexample: two rows carrying the same label value `"x"`
under different label names share a Series Key, so they land in one
series — and which row's label pairs that series carries depends on the
input order. Permuting the two rows changes the series's label set from
`{a:"x"}` to `{b:"x"}`, refuting the claimed invariance of per-series
label-pair sets under permutation. -/
theorem C6_label_set_counterexample :
    responseToTimeseries
      [[("a", .str "x"), ("value", .num 1),
        ("timestamp", .str "2024-01-01T00:00:00Z")],
       [("b", .str "x"), ("value", .num 2),
        ("timestamp", .str "2024-01-01T00:01:00Z")]] =
      some [⟨[⟨"a", "x"⟩],
             [⟨1704067200000, 1⟩, ⟨1704067260000, 2⟩]⟩] ∧
    responseToTimeseries
      [[("b", .str "x"), ("value", .num 2),
        ("timestamp", .str "2024-01-01T00:01:00Z")],
       [("a", .str "x"), ("value", .num 1),
        ("timestamp", .str "2024-01-01T00:00:00Z")]] =
      some [⟨[⟨"b", "x"⟩],
             [⟨1704067260000, 2⟩, ⟨1704067200000, 1⟩]⟩] := by
  constructor <;> decide

/-- C6 (amended): permuting a well-typed row sequence preserves the set
of Series Keys, and — provided rows sharing a key carry the same label
pairs, which the counterexample shows is otherwise not guaranteed —
each common key's series carries the same labels; within each series the
samples follow the order in which that key's rows appear in the
respective input. -/
theorem C6_perm_invariance (rows rows' : List Row)
    (hperm : rows.Perm rows')
    (hok : ∀ r ∈ rows, rowOk r = true)
    (hlab : ∀ r ∈ rows, ∀ r' ∈ rows,
      keyOf r = keyOf r' → labelPairsT r = labelPairsT r') :
    responseToTimeseries rows = some ((seriesOf rows).map Prod.snd) ∧
    responseToTimeseries rows' = some ((seriesOf rows').map Prod.snd) ∧
    (∀ k, k ∈ seriesKeys rows ↔ k ∈ seriesKeys rows') ∧
    (∀ k ts ts', lookupS (seriesOf rows) k = some ts →
      lookupS (seriesOf rows') k = some ts' → ts.labels = ts'.labels) ∧
    (∀ k ts', lookupS (seriesOf rows') k = some ts' →
      ts'.samples = (rowsOfKey rows' k).map sampleOf) := by
  have hok' : ∀ r ∈ rows', rowOk r = true :=
    fun r hr => hok r (hperm.mem_iff.mpr hr)
  refine ⟨responseToTimeseries_eq rows hok,
    responseToTimeseries_eq rows' hok', ?_, ?_, ?_⟩
  · intro k
    rw [mem_seriesKeys_iff, mem_seriesKeys_iff]
    constructor
    · rintro ⟨r, hr, hk⟩
      exact ⟨r, hperm.subset hr, hk⟩
    · rintro ⟨r, hr, hk⟩
      exact ⟨r, hperm.symm.subset hr, hk⟩
  · intro k ts ts' hts hts'
    rw [lookupS_seriesOf] at hts hts'
    cases h1 : rowsOfKey rows k with
    | nil =>
      simp only [h1] at hts
      exact Option.noConfusion hts
    | cons r t =>
      cases h2 : rowsOfKey rows' k with
      | nil =>
        simp only [h2] at hts'
        exact Option.noConfusion hts'
      | cons r' t' =>
        simp only [h1] at hts
        simp only [h2] at hts'
        have hm1 := rowsOfKey_head_mem h1
        have hm2 := rowsOfKey_head_mem h2
        have hr'mem : r' ∈ rows := hperm.mem_iff.mpr hm2.1
        have hlabels := hlab r hm1.1 r' hr'mem (hm1.2.trans hm2.2.symm)
        have e1 := Option.some_inj.mp hts
        have e2 := Option.some_inj.mp hts'
        rw [← e1, ← e2]
        simpa using hlabels
  · intro k ts' hts'
    rw [lookupS_seriesOf] at hts'
    cases h2 : rowsOfKey rows' k with
    | nil =>
      simp only [h2] at hts'
      exact Option.noConfusion hts'
    | cons r' t' =>
      simp only [h2] at hts'
      have e2 := Option.some_inj.mp hts'
      rw [← e2]

/-- Witness for C6: two single-label rows with distinct hosts, in both
orders. -/
theorem C6_perm_invariance_witness :
    responseToTimeseries
        [[("host", .str "c1"), ("value", .num 4),
          ("timestamp", .str "2024-01-01T00:00:00Z")],
         [("host", .str "c2"), ("value", .num 5),
          ("timestamp", .str "2024-01-01T00:00:00Z")]] =
      some ((seriesOf
        [[("host", .str "c1"), ("value", .num 4),
          ("timestamp", .str "2024-01-01T00:00:00Z")],
         [("host", .str "c2"), ("value", .num 5),
          ("timestamp", .str "2024-01-01T00:00:00Z")]]).map Prod.snd) ∧
    responseToTimeseries
        [[("host", .str "c2"), ("value", .num 5),
          ("timestamp", .str "2024-01-01T00:00:00Z")],
         [("host", .str "c1"), ("value", .num 4),
          ("timestamp", .str "2024-01-01T00:00:00Z")]] =
      some ((seriesOf
        [[("host", .str "c2"), ("value", .num 5),
          ("timestamp", .str "2024-01-01T00:00:00Z")],
         [("host", .str "c1"), ("value", .num 4),
          ("timestamp", .str "2024-01-01T00:00:00Z")]]).map Prod.snd) ∧
    (∀ k, k ∈ seriesKeys
        [[("host", .str "c1"), ("value", .num 4),
          ("timestamp", .str "2024-01-01T00:00:00Z")],
         [("host", .str "c2"), ("value", .num 5),
          ("timestamp", .str "2024-01-01T00:00:00Z")]] ↔
      k ∈ seriesKeys
        [[("host", .str "c2"), ("value", .num 5),
          ("timestamp", .str "2024-01-01T00:00:00Z")],
         [("host", .str "c1"), ("value", .num 4),
          ("timestamp", .str "2024-01-01T00:00:00Z")]]) ∧
    (∀ k ts ts', lookupS (seriesOf
        [[("host", .str "c1"), ("value", .num 4),
          ("timestamp", .str "2024-01-01T00:00:00Z")],
         [("host", .str "c2"), ("value", .num 5),
          ("timestamp", .str "2024-01-01T00:00:00Z")]]) k = some ts →
      lookupS (seriesOf
        [[("host", .str "c2"), ("value", .num 5),
          ("timestamp", .str "2024-01-01T00:00:00Z")],
         [("host", .str "c1"), ("value", .num 4),
          ("timestamp", .str "2024-01-01T00:00:00Z")]]) k = some ts' →
      ts.labels = ts'.labels) ∧
    (∀ k ts', lookupS (seriesOf
        [[("host", .str "c2"), ("value", .num 5),
          ("timestamp", .str "2024-01-01T00:00:00Z")],
         [("host", .str "c1"), ("value", .num 4),
          ("timestamp", .str "2024-01-01T00:00:00Z")]]) k = some ts' →
      ts'.samples = (rowsOfKey
        [[("host", .str "c2"), ("value", .num 5),
          ("timestamp", .str "2024-01-01T00:00:00Z")],
         [("host", .str "c1"), ("value", .num 4),
          ("timestamp", .str "2024-01-01T00:00:00Z")]] k).map sampleOf) :=
  C6_perm_invariance _ _
    (List.Perm.swap
      ([("host", FieldVal.str "c2"), ("value", FieldVal.num 5),
        ("timestamp", FieldVal.str "2024-01-01T00:00:00Z")] : Row)
      ([("host", FieldVal.str "c1"), ("value", FieldVal.num 4),
        ("timestamp", FieldVal.str "2024-01-01T00:00:00Z")] : Row) [])
    (by decide) (by decide)

/-- C7 counterexample: the rows `{a:"y", b:"y"}` and `{c:"y"}` carry
identical *sets* of label values under different label names, yet do not
collapse — they produce two series, because `buildKey` keeps
multiplicities. -/
theorem C7_value_set_counterexample :
    (labelValuesT [("a", .str "y"), ("b", .str "y"), ("value", .num 1),
        ("timestamp", .str "2024-01-01T00:00:00Z")]).dedup = ["y"] ∧
    (labelValuesT [("c", .str "y"), ("value", .num 2),
        ("timestamp", .str "2024-01-01T00:00:00Z")]).dedup = ["y"] ∧
    (responseToTimeseries
      [[("a", .str "y"), ("b", .str "y"), ("value", .num 1),
        ("timestamp", .str "2024-01-01T00:00:00Z")],
       [("c", .str "y"), ("value", .num 2),
        ("timestamp", .str "2024-01-01T00:00:00Z")]]).map List.length
      = some 2 := by
  refine ⟨?_, ?_, ?_⟩ <;> decide

/-- C7 (amended): two well-typed rows carrying the same *multiset* of
label values (under any label names) collapse into a single series, the
second row's sample appended after the first's. -/
theorem C7_same_value_multiset_collapses (r1 r2 : Row)
    (h1 : rowOk r1 = true) (h2 : rowOk r2 = true)
    (hvals : (labelValuesT r1).Perm (labelValuesT r2)) :
    ∃ ts, responseToTimeseries [r1, r2] = some [ts] ∧
      ts.samples = [sampleOf r1, sampleOf r2] := by
  have hok : ∀ r ∈ [r1, r2], rowOk r = true := by
    intro r hr
    rcases List.mem_cons.mp hr with rfl | hr2
    · exact h1
    · rcases List.mem_cons.mp hr2 with rfl | h
      · exact h2
      · simp at h
  have hkey : keyOf r2 = keyOf r1 := (keyOf_eq_of_perm hvals).symm
  have hstep1 : seriesStep [] r1
      = [(keyOf r1, ⟨labelPairsT r1, [sampleOf r1]⟩)] := by
    simp [seriesStep, lookupS, appendSample]
  have hstep2 : seriesStep [(keyOf r1, ⟨labelPairsT r1, [sampleOf r1]⟩)] r2
      = [(keyOf r1, ⟨labelPairsT r1, [sampleOf r1, sampleOf r2]⟩)] := by
    simp [seriesStep, lookupS, appendSample, hkey]
  refine ⟨⟨labelPairsT r1, [sampleOf r1, sampleOf r2]⟩, ?_, rfl⟩
  rw [responseToTimeseries_eq _ hok]
  simp [seriesOf, List.foldl_cons, List.foldl_nil, hstep1, hstep2]

/-- Witness for C7: rows `{m:"p", n:"q"}` and `{u:"q", w:"p"}` — same
value multiset, different names and order — yield one series with both
samples. -/
theorem C7_same_value_multiset_collapses_witness :
    ∃ ts, responseToTimeseries
      [[("m", .str "p"), ("n", .str "q"), ("value", .num 1),
        ("timestamp", .str "2024-01-01T00:00:00Z")],
       [("u", .str "q"), ("w", .str "p"), ("value", .num 2),
        ("timestamp", .str "2024-01-01T00:01:00Z")]] = some [ts] ∧
      ts.samples =
        [sampleOf [("m", .str "p"), ("n", .str "q"), ("value", .num 1),
          ("timestamp", .str "2024-01-01T00:00:00Z")],
         sampleOf [("u", .str "q"), ("w", .str "p"), ("value", .num 2),
          ("timestamp", .str "2024-01-01T00:01:00Z")]] :=
  C7_same_value_multiset_collapses _ _ (by decide) (by decide) (by decide)

/-- C8: a well-typed row whose `timestamp` string does not parse still
contributes a sample — stamped with the zero time's millisecond value —
and the rest of the response is still produced. -/
theorem C8_bad_timestamp_default_time (rows : List Row) (dp : Row)
    (hmem : dp ∈ rows) (hok : ∀ r ∈ rows, rowOk r = true)
    (hbad : parseRFC3339 (tsOf dp) = none) :
    sampleOf dp = ⟨zeroTimeMillis, valOf dp⟩ ∧
    ∃ l, responseToTimeseries rows = some l ∧
      ∃ ts ∈ l, Sample.mk zeroTimeMillis (valOf dp) ∈ ts.samples := by
  have hmillis : timeInMillis (tsOf dp) = zeroTimeMillis := by
    unfold timeInMillis
    rw [hbad]
    decide
  constructor
  · simp [sampleOf, hmillis]
  · refine ⟨(seriesOf rows).map Prod.snd,
      responseToTimeseries_eq rows hok, ?_⟩
    have hdp : dp ∈ rowsOfKey rows (keyOf dp) :=
      List.mem_filter.mpr ⟨hmem, by simp⟩
    cases hr : rowsOfKey rows (keyOf dp) with
    | nil =>
      rw [hr] at hdp
      simp at hdp
    | cons r t =>
      have hts := lookupS_seriesOf rows (keyOf dp)
      simp only [hr] at hts
      refine ⟨_, lookupS_mem_snd hts, ?_⟩
      rw [hr] at hdp
      have hin : sampleOf dp ∈ (r :: t).map sampleOf :=
        List.mem_map_of_mem _ hdp
      simpa [sampleOf, hmillis] using hin

/-- Witness for C8: a single row with timestamp `"not-a-time"` yields a
series whose sample carries the zero-time milliseconds. -/
theorem C8_bad_timestamp_default_time_witness :
    sampleOf [("h", .str "k"), ("value", .num 5),
        ("timestamp", .str "not-a-time")] =
      ⟨zeroTimeMillis, valOf [("h", .str "k"), ("value", .num 5),
        ("timestamp", .str "not-a-time")]⟩ ∧
    ∃ l, responseToTimeseries
        [[("h", .str "k"), ("value", .num 5),
          ("timestamp", .str "not-a-time")]] = some l ∧
      ∃ ts ∈ l, Sample.mk zeroTimeMillis
        (valOf [("h", .str "k"), ("value", .num 5),
          ("timestamp", .str "not-a-time")]) ∈ ts.samples :=
  C8_bad_timestamp_default_time _ _ (by decide) (by decide) (by decide)

/-- C9: a valid single-query request whose store `Read` fails yields
`http.Error(w, err, http.StatusInternalServerError)`; no protocol body
is written (`success` is the only outcome that writes one). -/
theorem C9_store_error_500 (deps : HandleDeps)
    (compressed reqBuf : Bytes) (req : ReadRequest) (e : String)
    (hd : deps.decompress compressed = .ok reqBuf)
    (hu : deps.unmarshal reqBuf = .ok req)
    (hq : req.queries.length = 1)
    (hr : deps.read req = .error e) :
    HandleRun deps (.ok compressed) = (.serverError e, true) := by
  simp only [HandleRun, hd, hu]
  simp [hq, hr]

/-- Witness for C9: a concrete store failure surfaces as a 500 with the
store's error text. -/
theorem C9_store_error_500_witness :
    HandleRun
      ⟨fun b => .ok b, fun _ => .ok ⟨[.mk]⟩,
       fun _ => .error "elasticsearch: connection refused",
       fun _ => .ok [], id⟩ (.ok []) =
      (.serverError "elasticsearch: connection refused", true) :=
  C9_store_error_500 _ [] [] ⟨[.mk]⟩ _ rfl rfl rfl rfl

/-- C10: over well-typed rows, grouping conserves samples — the sample
counts of the produced series sum to the number of input rows, and each
key's series holds exactly the samples of that key's rows in input
order. -/
theorem C10_sample_conservation (rows : List Row)
    (hok : ∀ r ∈ rows, rowOk r = true) :
    ∃ l, responseToTimeseries rows = some l ∧
      (l.map (fun ts => ts.samples.length)).sum = rows.length ∧
      (∀ k ts, lookupS (seriesOf rows) k = some ts →
        ts.samples = (rowsOfKey rows k).map sampleOf) := by
  refine ⟨(seriesOf rows).map Prod.snd,
    responseToTimeseries_eq rows hok, ?_, ?_⟩
  · rw [List.map_map]
    show totalSamples (seriesOf rows) = rows.length
    rw [seriesOf, totalSamples_foldl]
    simp [totalSamples]
  · intro k ts hts
    have hl := lookupS_seriesOf rows k
    rw [hts] at hl
    cases hr : rowsOfKey rows k with
    | nil =>
      simp only [hr] at hl
      exact Option.noConfusion hl
    | cons r t =>
      simp only [hr] at hl
      have e := Option.some_inj.mp hl
      simp [e]

/-- Witness for C10: two rows of one host — one with an unparseable
timestamp — produce series whose sample counts sum to 2. -/
theorem C10_sample_conservation_witness :
    ∃ l, responseToTimeseries
        [[("app", .str "w1"), ("value", .num 7),
          ("timestamp", .str "2024-05-05T05:05:05Z")],
         [("app", .str "w1"), ("value", .num 8),
          ("timestamp", .str "bogus")]] = some l ∧
      (l.map (fun ts => ts.samples.length)).sum =
        (([[("app", .str "w1"), ("value", .num 7),
            ("timestamp", .str "2024-05-05T05:05:05Z")],
           [("app", .str "w1"), ("value", .num 8),
            ("timestamp", .str "bogus")]] : List Row)).length ∧
      (∀ k ts, lookupS (seriesOf
          [[("app", .str "w1"), ("value", .num 7),
            ("timestamp", .str "2024-05-05T05:05:05Z")],
           [("app", .str "w1"), ("value", .num 8),
            ("timestamp", .str "bogus")]]) k = some ts →
        ts.samples = (rowsOfKey
          [[("app", .str "w1"), ("value", .num 7),
            ("timestamp", .str "2024-05-05T05:05:05Z")],
           [("app", .str "w1"), ("value", .num 8),
            ("timestamp", .str "bogus")]] k).map sampleOf) :=
  C10_sample_conservation _ (by decide)

end ESAdapter
